/-
  Verification of the statement-routing layer (polkadot/network/src/router.rs):
  the deferred-statement buffer (DeferredStatements) and the statement import
  router (Router::import_statement), together with the per-producer validation
  predicate and the TableRouter boundary methods.

  Shallow-embedding conventions:
  - Hashes, session keys, signatures, block ids, collations and collation
    errors are opaque fixed-size values in the source; they are modelled as
    natural numbers.
  - The HashMap from candidate hash to Vec<SignedStatement> is modelled as a
    total function from hashes to lists; an absent key is the empty list
    (push only ever creates non-empty entries, so the two representations are
    observationally identical).
  - The HashSet<StatementTrace> is modelled as a Finset.
  - The consensus table is an external collaborator; only the candidate lookup
    consulted through with_candidate is modelled. import_statement returns the
    action performed (defer, or the single batch handed to
    import_remote_statements) paired with the updated buffer. The asynchronous
    producer pipeline is modelled by the validate predicate separately.
-/
import Mathlib

abbrev Hash := Nat
abbrev SessionKey := Nat
abbrev Signature := Nat
abbrev CheckedBlockId := Nat
abbrev Collation := Nat
abbrev CollationError := Nat

/-- Unit struct Extrinsic from polkadot_primitives. -/
inductive Extrinsic where
  | mk : Extrinsic
  deriving DecidableEq

/-- Candidate receipt, abstracted to the content hash its hash method computes;
the remaining receipt fields play no role in routing. -/
structure CandidateReceipt where
  hash : Hash
  deriving DecidableEq

/-- Statements circulated between validators (GenericStatement in
polkadot_consensus, as used by router.rs). -/
inductive GenericStatement where
  | Candidate : CandidateReceipt → GenericStatement
  | Valid : Hash → GenericStatement
  | Invalid : Hash → GenericStatement
  | Available : Hash → GenericStatement
  deriving DecidableEq

/-- A statement with its sender and (already verified) signature. -/
structure SignedStatement where
  statement : GenericStatement
  sender : SessionKey
  signature : Signature
  deriving DecidableEq

/-- A unique trace for valid statements issued by a validator (router.rs). -/
inductive StatementTrace where
  | Valid : SessionKey → Hash → StatementTrace
  | Invalid : SessionKey → Hash → StatementTrace
  | Available : SessionKey → Hash → StatementTrace
  deriving DecidableEq

/-- The hash component of a trace. -/
def StatementTrace.hash : StatementTrace → Hash
  | .Valid _ h => h
  | .Invalid _ h => h
  | .Available _ h => h

/-- The candidate hash referenced by a statement; none for Candidate, which is
self-describing. -/
def GenericStatement.refHash : GenericStatement → Option Hash
  | .Candidate _ => none
  | .Valid h => some h
  | .Invalid h => some h
  | .Available h => some h

/-- The (hash, trace) pair computed at the top of DeferredStatements::push;
none exactly for Candidate statements (the early return). -/
def statementTrace (s : SignedStatement) : Option (Hash × StatementTrace) :=
  match s.statement with
  | .Candidate _ => none
  | .Valid hash => some (hash, StatementTrace.Valid s.sender hash)
  | .Invalid hash => some (hash, StatementTrace.Invalid s.sender hash)
  | .Available hash => some (hash, StatementTrace.Available s.sender hash)

/-- The trace recomputed per statement inside get_deferred (the same match,
keeping only the trace; Candidate statements are skipped via none). -/
def traceOfStatement (s : SignedStatement) : Option StatementTrace :=
  (statementTrace s).map Prod.snd

/-- Helper for deferring statements whose associated candidate is unknown
(struct DeferredStatements in router.rs). -/
structure DeferredStatements where
  deferred : Hash → List SignedStatement
  known_traces : Finset StatementTrace

/-- DeferredStatements::new. -/
def DeferredStatements.new : DeferredStatements :=
  ⟨fun _ => [], ∅⟩

/-- DeferredStatements::push: Candidate statements return immediately; for the
hash-referencing kinds, the statement is appended to the list for its hash only
when its trace was not yet known. -/
def DeferredStatements.push (st : DeferredStatements) (statement : SignedStatement) :
    DeferredStatements :=
  match statementTrace statement with
  | none => st
  | some (hash, trace) =>
    if trace ∈ st.known_traces then st
    else
      ⟨fun h => if h = hash then st.deferred hash ++ [statement] else st.deferred h,
       insert trace st.known_traces⟩

/-- DeferredStatements::get_deferred: remove the entry for the hash, recompute
the trace of each removed statement, remove those traces from the known set,
and return both lists together with the updated buffer. -/
def DeferredStatements.get_deferred (st : DeferredStatements) (hash : Hash) :
    (List SignedStatement × List StatementTrace) × DeferredStatements :=
  ((st.deferred hash, (st.deferred hash).filterMap traceOfStatement),
   ⟨fun h => if h = hash then [] else st.deferred h,
    ((st.deferred hash).filterMap traceOfStatement).foldl Finset.erase st.known_traces⟩)

/-- The slice of the consensus table the router consults: candidate lookup by
hash. -/
structure SharedTable where
  candidates : Hash → Option CandidateReceipt

/-- SharedTable::with_candidate specialised to Bool results, the only use in
import_statement. -/
def SharedTable.with_candidate (t : SharedTable) (hash : Hash)
    (f : Option CandidateReceipt → Bool) : Bool :=
  f (t.candidates hash)

/-- Table routing implementation (struct Router). The network and
task_executor collaborators perform I/O only and carry no routing state; the
api collaborator is modelled by the validate_collation capability consulted in
the validation closure. -/
structure Router where
  table : SharedTable
  api : CheckedBlockId → Collation → Except CollationError Unit
  parent_hash : Option CheckedBlockId
  deferred_statements : DeferredStatements

/-- What one call to import_statement did: either the statement was pushed into
the deferred buffer, or a batch was handed to import_remote_statements in one
call. -/
inductive ImportOutcome where
  | deferredStatement : ImportOutcome
  | imported : List SignedStatement → ImportOutcome
  deriving DecidableEq

/-- Router::import_statement: defer any statement whose candidate the table
does not know yet; otherwise drain the statements pending on this candidate
(only a Candidate statement can drain) and hand the chained batch to
import_remote_statements. -/
def Router.import_statement (r : Router) (statement : SignedStatement) :
    ImportOutcome × DeferredStatements :=
  let defer := match statement.statement with
    | .Candidate _ => false
    | .Valid hash | .Invalid hash | .Available hash =>
        r.table.with_candidate hash (fun c => c.isNone)
  if defer then
    (ImportOutcome.deferredStatement, r.deferred_statements.push statement)
  else
    match statement.statement with
    | GenericStatement.Candidate candidate =>
      (ImportOutcome.imported
          (statement :: (r.deferred_statements.get_deferred candidate.hash).1.1),
       (r.deferred_statements.get_deferred candidate.hash).2)
    | _ =>
      (ImportOutcome.imported [statement], r.deferred_statements)

/-- The per-producer validation predicate built inside import_statement: the
closure capturing api and the cloned parent_hash. The question-mark operator on
the missing parent context yields none; a check error is converted to
Some(false). -/
def Router.validate (r : Router) (collation : Collation) : Option Bool :=
  match r.parent_hash with
  | none => none
  | some checked =>
    match r.api checked collation with
    | Except.ok _ => some true
    | Except.error _ => some false

/-- TableRouter::fetch_extrinsic_data for Router: immediately Ok(Extrinsic). -/
def Router.fetch_extrinsic_data (_r : Router) (_candidate : CandidateReceipt) :
    Except Unit Extrinsic :=
  Except.ok Extrinsic.mk

/-- Number of occurrences, in the deferred list kept for the hash a trace
refers to, of statements whose recomputed trace is that trace. -/
def TraceCount (st : DeferredStatements) (t : StatementTrace) : Nat :=
  (st.deferred t.hash).countP (fun s => decide (traceOfStatement s = some t))

/-- The buffer invariant exactly as the specification states it: a trace is in
the set iff exactly one statement with that trace sits in the per-hash list,
and Candidate statements are never stored. -/
def BufferInvariant (st : DeferredStatements) : Prop :=
  (∀ t : StatementTrace, t ∈ st.known_traces ↔ TraceCount st t = 1) ∧
  (∀ (h : Hash) (s : SignedStatement), s ∈ st.deferred h →
    ∀ c : CandidateReceipt, s.statement ≠ GenericStatement.Candidate c)

/-- Every buffered statement sits in the list of its own referenced candidate
hash (the keying discipline of push). -/
def WellKeyed (st : DeferredStatements) : Prop :=
  ∀ (h : Hash) (s : SignedStatement), s ∈ st.deferred h →
    ∃ t : StatementTrace, statementTrace s = some (h, t)

/-- Strengthened, inductive form of the buffer invariant: well-keyed, and a
trace occurs exactly once when known and never otherwise. -/
def StrongInv (st : DeferredStatements) : Prop :=
  WellKeyed st ∧
  ∀ t : StatementTrace, TraceCount st t = if t ∈ st.known_traces then 1 else 0

/-- Buffer states reachable from the freshly created buffer by pushes and
drains. -/
inductive Reachable : DeferredStatements → Prop where
  | init : Reachable DeferredStatements.new
  | push (st : DeferredStatements) (s : SignedStatement) :
      Reachable st → Reachable (st.push s)
  | drain (st : DeferredStatements) (h : Hash) :
      Reachable st → Reachable (st.get_deferred h).2

/-- Concrete signed statement mirroring the source test deferred_statements_works:
Valid for hash 1 from sender 255 with signature 2. -/
def exampleStatement : SignedStatement :=
  ⟨GenericStatement.Valid 1, 255, 2⟩

/-- The trace of exampleStatement. -/
def exampleTrace : StatementTrace := StatementTrace.Valid 255 1

/-- A second statement with a distinct trace referencing the same hash. -/
def otherStatement : SignedStatement :=
  ⟨GenericStatement.Invalid 1, 255, 2⟩

/-- An unreachable state that satisfies the literal buffer invariant while
holding two copies of exampleStatement under hash 1. -/
def doubledState : DeferredStatements :=
  ⟨fun h => if h = 1 then [exampleStatement, exampleStatement] else [], ∅⟩

/-- A buffer already holding otherStatement under hash 1. -/
def preloadedState : DeferredStatements :=
  DeferredStatements.new.push otherStatement

/-- Concrete receipt for hash 1. -/
def exampleReceipt : CandidateReceipt := ⟨1⟩

/-- A table that knows exactly the candidate with hash 1. -/
def exampleTable : SharedTable :=
  ⟨fun h => if h = 1 then some exampleReceipt else none⟩

/-- A router over exampleTable whose buffer holds exampleStatement. -/
def exampleRouter : Router :=
  ⟨exampleTable, fun _ _ => Except.ok (), some 7, DeferredStatements.new.push exampleStatement⟩

/-- A table that knows no candidate at all. -/
def emptyTable : SharedTable := ⟨fun _ => none⟩

/-- A router over emptyTable with an empty buffer and no parent context. -/
def emptyRouter : Router :=
  ⟨emptyTable, fun _ _ => Except.ok (), none, DeferredStatements.new⟩

/-- The recomputed trace of a statement at a given drained hash, following the
specification wording: the statement kind, the sender, and the drained hash. -/
def traceFor (s : SignedStatement) (h : Hash) : Option StatementTrace :=
  match s.statement with
  | .Candidate _ => none
  | .Valid _ => some (StatementTrace.Valid s.sender h)
  | .Invalid _ => some (StatementTrace.Invalid s.sender h)
  | .Available _ => some (StatementTrace.Available s.sender h)

theorem statementTrace_hash (s : SignedStatement) (h : Hash) (t : StatementTrace)
    (hs : statementTrace s = some (h, t)) : t.hash = h := by
  cases s with
  | mk stmt sender sig =>
    cases stmt <;> simp [statementTrace] at hs <;>
      obtain ⟨rfl, rfl⟩ := hs <;> rfl

theorem traceOfStatement_of_statementTrace (s : SignedStatement) (h : Hash)
    (t : StatementTrace) (hs : statementTrace s = some (h, t)) :
    traceOfStatement s = some t := by
  simp [traceOfStatement, hs]

theorem traceFor_of_statementTrace (s : SignedStatement) (h : Hash)
    (t : StatementTrace) (hs : statementTrace s = some (h, t)) :
    traceFor s h = some t := by
  cases s with
  | mk stmt sender sig =>
    cases stmt <;> simp [statementTrace] at hs <;>
      obtain ⟨rfl, rfl⟩ := hs <;> rfl

theorem mem_foldl_erase {α : Type} [DecidableEq α] (l : List α) (s : Finset α) (a : α) :
    a ∈ l.foldl Finset.erase s ↔ a ∈ s ∧ a ∉ l := by
  induction l generalizing s with
  | nil => simp
  | cons b l ih =>
    simp only [List.foldl_cons, ih, Finset.mem_erase, List.mem_cons]
    tauto

/-- Claim C5: pushing one non-Candidate signed statement s referencing hash h
into the fresh buffer and then draining h returns exactly the singleton list
containing s together with exactly one trace, equal to the trace built from
the kind of s, the sender of s and h. -/
theorem push_drain_round_trip (s : SignedStatement) (h : Hash) (t : StatementTrace)
    (hs : statementTrace s = some (h, t)) :
    ((DeferredStatements.new.push s).get_deferred h).1 = ([s], [t]) ∧
    traceFor s h = some t := by
  refine ⟨?_, traceFor_of_statementTrace s h t hs⟩
  simp [DeferredStatements.new, DeferredStatements.push, hs,
    DeferredStatements.get_deferred, traceOfStatement]

/-- Witness for push_drain_round_trip at the concrete statement of the source
test: Valid for hash 1 from sender 255. -/
theorem push_drain_round_trip_witness :
    ((DeferredStatements.new.push exampleStatement).get_deferred 1).1 =
        ([exampleStatement], [exampleTrace]) ∧
    traceFor exampleStatement 1 = some exampleTrace :=
  push_drain_round_trip exampleStatement 1 exampleTrace rfl

/-- Claim C6: draining a hash with nothing buffered returns two empty
sequences, and immediately after any drain of h a second drain of h returns
two empty sequences. -/
theorem drain_empty_and_post (st : DeferredStatements) (h : Hash) :
    (st.deferred h = [] → (st.get_deferred h).1 = ([], [])) ∧
    (((st.get_deferred h).2).get_deferred h).1 = ([], []) := by
  constructor
  · intro hd
    simp [DeferredStatements.get_deferred, hd]
  · simp [DeferredStatements.get_deferred]

/-- Witness for drain_empty_and_post at the fresh buffer and hash 1. -/
theorem drain_empty_and_post_witness :
    (DeferredStatements.new.get_deferred 1).1 = ([], []) :=
  (drain_empty_and_post DeferredStatements.new 1).1 rfl

/-- Claim C8: pushing a Candidate statement is a complete no-op on the buffer,
and a drain of that candidate hash from a state with nothing buffered for it
stays empty. -/
theorem push_candidate_noop (st : DeferredStatements) (s : SignedStatement)
    (c : CandidateReceipt) (hc : s.statement = GenericStatement.Candidate c) :
    st.push s = st ∧
    (st.deferred c.hash = [] → ((st.push s).get_deferred c.hash).1 = ([], [])) := by
  have hst : statementTrace s = none := by
    simp [statementTrace, hc]
  constructor
  · simp [DeferredStatements.push, hst]
  · intro hd
    simp [DeferredStatements.push, hst, DeferredStatements.get_deferred, hd]

/-- Witness for push_candidate_noop at a concrete Candidate statement over the
fresh buffer. -/
theorem push_candidate_noop_witness :
    DeferredStatements.new.push ⟨GenericStatement.Candidate exampleReceipt, 9, 9⟩ =
        DeferredStatements.new ∧
    ((DeferredStatements.new.push
        ⟨GenericStatement.Candidate exampleReceipt, 9, 9⟩).get_deferred
        exampleReceipt.hash).1 = ([], []) := by
  have h := push_candidate_noop DeferredStatements.new
      ⟨GenericStatement.Candidate exampleReceipt, 9, 9⟩ exampleReceipt rfl
  exact ⟨h.1, h.2 rfl⟩

/-- Claim C9: the validation predicate yields none exactly when the parent
context is absent; with a context present it yields Some true iff the
collation check succeeds and Some false iff the check returns an error. -/
theorem validate_predicate_spec (r : Router) (collation : Collation) :
    (r.validate collation = none ↔ r.parent_hash = none) ∧
    ∀ checked : CheckedBlockId, r.parent_hash = some checked →
      ((r.validate collation = some true ↔ r.api checked collation = Except.ok ()) ∧
       (r.validate collation = some false ↔
          ∃ e : CollationError, r.api checked collation = Except.error e)) := by
  constructor
  · cases hp : r.parent_hash with
    | none => simp [Router.validate, hp]
    | some checked =>
      cases hc : r.api checked collation <;> simp [Router.validate, hp, hc]
  · intro checked hp
    cases hc : r.api checked collation with
    | ok u => cases u; simp [Router.validate, hp, hc]
    | error e =>
      constructor
      · simp [Router.validate, hp, hc]
      · simp [Router.validate, hp, hc]

/-- Witness for validate_predicate_spec: exampleRouter has a parent context
and an always-succeeding check, so validation of collation 0 yields Some true;
emptyRouter has no parent context, so validation yields none. -/
theorem validate_predicate_spec_witness :
    exampleRouter.validate 0 = some true ∧ emptyRouter.validate 0 = none := by
  constructor
  · exact (((validate_predicate_spec exampleRouter 0).2 7 rfl).1).mpr rfl
  · exact (validate_predicate_spec emptyRouter 0).1.mpr rfl

/-- Claim C10: fetch_extrinsic_data never fails; it returns Ok(Extrinsic)
immediately for every router and every candidate receipt. -/
theorem fetch_extrinsic_always_ok :
    ∀ (r : Router) (c : CandidateReceipt),
      r.fetch_extrinsic_data c = Except.ok Extrinsic.mk :=
  fun _ _ => rfl

/-- Counterexample to claim C4 as stated: over an arbitrary buffer state the
drained list after a duplicate push need not have length 1. Here the buffer
already holds otherStatement for hash 1, so after pushing exampleStatement
twice, draining hash 1 returns two statements. -/
theorem push_twice_drain_two :
    ¬ ((((preloadedState.push exampleStatement).push exampleStatement).get_deferred
        1).1.1.length = 1) := by
  decide

/-- Claim C4 (amended): pushing the same non-Candidate statement twice leaves
the buffer exactly as pushing it once, for every buffer state; and when the
buffer holds nothing for the statement hash and its trace is absent (in
particular in the fresh buffer), a subsequent drain returns the singleton list
containing the statement once, not twice. -/
theorem push_idempotent (st : DeferredStatements) (s : SignedStatement) (h : Hash)
    (t : StatementTrace) (hs : statementTrace s = some (h, t)) :
    (st.push s).push s = st.push s ∧
    (st.deferred h = [] → t ∉ st.known_traces →
      (((st.push s).push s).get_deferred h).1 = ([s], [t])) := by
  constructor
  · by_cases hk : t ∈ st.known_traces <;>
      simp [DeferredStatements.push, hs, hk, Finset.mem_insert_self]
  · intro hd hk
    simp [DeferredStatements.push, hs, hk, Finset.mem_insert_self,
      DeferredStatements.get_deferred, hd, traceOfStatement]

/-- Witness for push_idempotent at the fresh buffer and the concrete statement
of the source test. -/
theorem push_idempotent_witness :
    (DeferredStatements.new.push exampleStatement).push exampleStatement =
        DeferredStatements.new.push exampleStatement ∧
    (((DeferredStatements.new.push exampleStatement).push
        exampleStatement).get_deferred 1).1 = ([exampleStatement], [exampleTrace]) := by
  have h := push_idempotent DeferredStatements.new exampleStatement 1 exampleTrace rfl
  exact ⟨h.1, h.2 rfl (by decide)⟩

/-- Concrete Candidate signed statement for the candidate with hash 1. -/
def exampleCandidateStatement : SignedStatement :=
  ⟨GenericStatement.Candidate exampleReceipt, 9, 9⟩

/-- Claim C1: import_statement defers a statement (pushes it into the deferred
buffer and hands nothing to the table in that call) iff the statement is one of
the hash-referencing kinds and the table does not know the referenced hash;
a Candidate statement is never deferred and always proceeds to the batched
import. -/
theorem import_statement_defer_iff (r : Router) (s : SignedStatement) :
    (r.import_statement s =
        (ImportOutcome.deferredStatement, r.deferred_statements.push s) ↔
      ∃ h : Hash, s.statement.refHash = some h ∧ r.table.candidates h = none) ∧
    (∀ c : CandidateReceipt, s.statement = GenericStatement.Candidate c →
      (r.import_statement s).1 =
        ImportOutcome.imported
          (s :: (r.deferred_statements.get_deferred c.hash).1.1)) := by
  cases hstmt : s.statement with
  | Candidate c =>
    constructor
    · simp [Router.import_statement, hstmt, GenericStatement.refHash]
    · intro c' hc
      simp only [GenericStatement.Candidate.injEq] at hc
      subst hc
      simp [Router.import_statement, hstmt]
  | Valid h0 =>
    refine ⟨?_, ?_⟩
    · cases ht : r.table.candidates h0 <;>
        simp [Router.import_statement, hstmt, GenericStatement.refHash,
          SharedTable.with_candidate, ht]
    · intro c' hc
      simp at hc
  | Invalid h0 =>
    refine ⟨?_, ?_⟩
    · cases ht : r.table.candidates h0 <;>
        simp [Router.import_statement, hstmt, GenericStatement.refHash,
          SharedTable.with_candidate, ht]
    · intro c' hc
      simp at hc
  | Available h0 =>
    refine ⟨?_, ?_⟩
    · cases ht : r.table.candidates h0 <;>
        simp [Router.import_statement, hstmt, GenericStatement.refHash,
          SharedTable.with_candidate, ht]
    · intro c' hc
      simp at hc

/-- Witness for import_statement_defer_iff: over a table that knows nothing,
the Valid statement is deferred; over a table knowing candidate 1, a Candidate
statement proceeds with its drained batch. -/
theorem import_statement_defer_iff_witness :
    emptyRouter.import_statement exampleStatement =
        (ImportOutcome.deferredStatement,
         emptyRouter.deferred_statements.push exampleStatement) ∧
    (exampleRouter.import_statement exampleCandidateStatement).1 =
        ImportOutcome.imported
          (exampleCandidateStatement ::
            (exampleRouter.deferred_statements.get_deferred
              exampleReceipt.hash).1.1) := by
  constructor
  · exact (import_statement_defer_iff emptyRouter exampleStatement).1.mpr ⟨1, rfl, rfl⟩
  · exact (import_statement_defer_iff exampleRouter exampleCandidateStatement).2
      exampleReceipt rfl

/-- Claim C2: on the proceed path, the batch handed to the import of the
consensus table in one call is the statement followed by the drained
statements in their original buffered order when the statement is a Candidate
(and the buffer entry for its hash is drained), and exactly the singleton
batch with the buffer untouched for a non-Candidate statement whose hash the
table already knows. -/
theorem import_statement_batch (r : Router) (s : SignedStatement) :
    (∀ c : CandidateReceipt, s.statement = GenericStatement.Candidate c →
      r.import_statement s =
        (ImportOutcome.imported (s :: r.deferred_statements.deferred c.hash),
         (r.deferred_statements.get_deferred c.hash).2)) ∧
    (∀ h : Hash, s.statement.refHash = some h → (r.table.candidates h).isSome →
      r.import_statement s =
        (ImportOutcome.imported [s], r.deferred_statements)) := by
  cases hstmt : s.statement with
  | Candidate c =>
    refine ⟨?_, ?_⟩
    · intro c' hc
      simp only [GenericStatement.Candidate.injEq] at hc
      subst hc
      simp [Router.import_statement, hstmt, DeferredStatements.get_deferred]
    · intro h0 hr
      simp [GenericStatement.refHash] at hr
  | Valid h1 =>
    refine ⟨?_, ?_⟩
    · intro c' hc
      simp at hc
    · intro h0 hr ht
      simp only [GenericStatement.refHash, Option.some.injEq] at hr
      subst hr
      cases hsome : r.table.candidates h1 with
      | none => rw [hsome] at ht; cases ht
      | some c =>
        simp [Router.import_statement, hstmt, SharedTable.with_candidate, hsome]
  | Invalid h1 =>
    refine ⟨?_, ?_⟩
    · intro c' hc
      simp at hc
    · intro h0 hr ht
      simp only [GenericStatement.refHash, Option.some.injEq] at hr
      subst hr
      cases hsome : r.table.candidates h1 with
      | none => rw [hsome] at ht; cases ht
      | some c =>
        simp [Router.import_statement, hstmt, SharedTable.with_candidate, hsome]
  | Available h1 =>
    refine ⟨?_, ?_⟩
    · intro c' hc
      simp at hc
    · intro h0 hr ht
      simp only [GenericStatement.refHash, Option.some.injEq] at hr
      subst hr
      cases hsome : r.table.candidates h1 with
      | none => rw [hsome] at ht; cases ht
      | some c =>
        simp [Router.import_statement, hstmt, SharedTable.with_candidate, hsome]

/-- Witness for import_statement_batch: exampleRouter holds exampleStatement
buffered for hash 1, so importing the Candidate statement for hash 1 hands
the table the two-element batch, while importing the Valid statement (hash 1
already known) hands it the singleton batch with the buffer untouched. -/
theorem import_statement_batch_witness :
    exampleRouter.deferred_statements.deferred exampleReceipt.hash =
        [exampleStatement] ∧
    exampleRouter.import_statement exampleCandidateStatement =
        (ImportOutcome.imported
          (exampleCandidateStatement ::
            exampleRouter.deferred_statements.deferred exampleReceipt.hash),
         (exampleRouter.deferred_statements.get_deferred exampleReceipt.hash).2) ∧
    exampleRouter.import_statement exampleStatement =
        (ImportOutcome.imported [exampleStatement],
         exampleRouter.deferred_statements) := by
  refine ⟨by decide, ?_, ?_⟩
  · exact (import_statement_batch exampleRouter exampleCandidateStatement).1
      exampleReceipt rfl
  · exact (import_statement_batch exampleRouter exampleStatement).2 1 rfl (by decide)

theorem strongInv_new : StrongInv DeferredStatements.new := by
  constructor
  · intro h x hx
    exact absurd hx (List.not_mem_nil x)
  · intro t
    simp [TraceCount, DeferredStatements.new]

theorem strongInv_push (st : DeferredStatements) (s : SignedStatement)
    (hI : StrongInv st) : StrongInv (st.push s) := by
  cases hs : statementTrace s with
  | none => simpa [DeferredStatements.push, hs] using hI
  | some ht =>
    obtain ⟨h, t⟩ := ht
    by_cases hk : t ∈ st.known_traces
    · simpa [DeferredStatements.push, hs, hk] using hI
    · have hpush : st.push s =
          ⟨fun h' => if h' = h then st.deferred h ++ [s] else st.deferred h',
           insert t st.known_traces⟩ := by
        simp [DeferredStatements.push, hs, hk]
      have hth : t.hash = h := statementTrace_hash s h t hs
      have hts : traceOfStatement s = some t :=
        traceOfStatement_of_statementTrace s h t hs
      constructor
      · intro h' x hx
        rw [hpush] at hx
        dsimp only at hx
        by_cases hh : h' = h
        · subst hh
          rw [if_pos rfl] at hx
          rcases List.mem_append.mp hx with hx | hx
          · exact hI.1 h' x hx
          · rcases List.mem_singleton.mp hx with rfl
            exact ⟨t, hs⟩
        · rw [if_neg hh] at hx
          exact hI.1 h' x hx
      · intro u
        have hd : (st.push s).deferred u.hash =
            if u.hash = h then st.deferred h ++ [s] else st.deferred u.hash := by
          rw [hpush]
        have hkn : (st.push s).known_traces = insert t st.known_traces := by
          rw [hpush]
        simp only [TraceCount]
        rw [hd, hkn]
        by_cases huh : u.hash = h
        · rw [if_pos huh, List.countP_append]
          by_cases hut : u = t
          · subst hut
            have h0 : TraceCount st u = 0 := by
              rw [hI.2 u, if_neg hk]
            simp only [TraceCount] at h0
            rw [huh] at h0
            rw [h0]
            simp [List.countP_cons, hts, Finset.mem_insert_self]
          · have h0 : List.countP
                (fun x => decide (traceOfStatement x = some u)) [s] = 0 := by
              simp [List.countP_cons, hts, Ne.symm hut]
            rw [h0, Nat.add_zero]
            have hbase : List.countP
                (fun x => decide (traceOfStatement x = some u)) (st.deferred h) =
                TraceCount st u := by
              simp only [TraceCount]
              rw [huh]
            rw [hbase, hI.2 u]
            simp [Finset.mem_insert, hut]
        · rw [if_neg huh]
          have hut : u ≠ t := fun hh => huh (hh ▸ hth)
          have hbase : List.countP
              (fun x => decide (traceOfStatement x = some u)) (st.deferred u.hash) =
              TraceCount st u := rfl
          rw [hbase, hI.2 u]
          simp [Finset.mem_insert, hut]

theorem strongInv_drain (st : DeferredStatements) (h : Hash)
    (hI : StrongInv st) : StrongInv (st.get_deferred h).2 := by
  have htraces : ∀ u : StatementTrace,
      u ∈ (st.deferred h).filterMap traceOfStatement → u.hash = h := by
    intro u hu
    rcases List.mem_filterMap.mp hu with ⟨x, hx, hxu⟩
    obtain ⟨t, ht⟩ := hI.1 h x hx
    have : traceOfStatement x = some t := traceOfStatement_of_statementTrace x h t ht
    rw [this] at hxu
    cases hxu
    exact statementTrace_hash x h u ht
  constructor
  · intro h' x hx
    dsimp only [DeferredStatements.get_deferred] at hx
    by_cases hh : h' = h
    · rw [if_pos hh] at hx
      exact absurd hx (List.not_mem_nil x)
    · rw [if_neg hh] at hx
      exact hI.1 h' x hx
  · intro u
    dsimp only [DeferredStatements.get_deferred, TraceCount]
    by_cases hu : u.hash = h
    · rw [if_pos hu, List.countP_nil]
      have hmem : u ∉ ((st.deferred h).filterMap traceOfStatement).foldl
          Finset.erase st.known_traces := by
        rw [mem_foldl_erase]
        rintro ⟨hk, hnt⟩
        have h1 : TraceCount st u = 1 := by rw [hI.2 u, if_pos hk]
        have hpos : 0 < (st.deferred u.hash).countP
            (fun x => decide (traceOfStatement x = some u)) := by
          rw [TraceCount] at h1
          omega
        rcases List.countP_pos_iff.mp hpos with ⟨x, hx, hpx⟩
        rw [hu] at hx
        exact hnt (List.mem_filterMap.mpr ⟨x, hx, of_decide_eq_true hpx⟩)
      rw [if_neg hmem]
    · rw [if_neg hu]
      have hnt : u ∉ (st.deferred h).filterMap traceOfStatement :=
        fun hmem => hu (htraces u hmem)
      have hiff : u ∈ ((st.deferred h).filterMap traceOfStatement).foldl
          Finset.erase st.known_traces ↔ u ∈ st.known_traces := by
        rw [mem_foldl_erase]
        exact ⟨fun hp => hp.1, fun hk => ⟨hk, hnt⟩⟩
      by_cases hk : u ∈ st.known_traces
      · rw [if_pos (hiff.mpr hk)]
        have := hI.2 u
        rwa [if_pos hk] at this
      · rw [if_neg (fun hp => hk (hiff.mp hp))]
        have := hI.2 u
        rwa [if_neg hk] at this

theorem reachable_strongInv (st : DeferredStatements) (hr : Reachable st) :
    StrongInv st := by
  induction hr with
  | init => exact strongInv_new
  | push st s _ ih => exact strongInv_push st s ih
  | drain st h _ ih => exact strongInv_drain st h ih

theorem strongInv_bufferInvariant (st : DeferredStatements) (hI : StrongInv st) :
    BufferInvariant st := by
  constructor
  · intro t
    constructor
    · intro ht
      rw [hI.2 t, if_pos ht]
    · intro hc
      by_contra hmem
      rw [hI.2 t, if_neg hmem] at hc
      exact absurd hc (by decide)
  · intro h x hx c hc
    obtain ⟨t, ht⟩ := hI.1 h x hx
    rw [statementTrace, hc] at ht
    cases ht

/-- Counterexample to claim C3 as stated: preservation by push fails for
arbitrary states satisfying the literal invariant. The state doubledState
holds two copies of exampleStatement for hash 1 with an empty trace set; the
literal invariant holds of it vacuously, yet pushing exampleStatement yields
three buffered copies with the trace now in the set. -/
theorem bufferInvariant_not_preserved :
    BufferInvariant doubledState ∧
    ¬ BufferInvariant (doubledState.push exampleStatement) := by
  constructor
  · constructor
    · intro t
      constructor
      · intro hmem
        exact absurd hmem (Finset.not_mem_empty t)
      · intro hc
        exfalso
        by_cases hh : t.hash = 1
        · by_cases hp : traceOfStatement exampleStatement = some t
          · simp [TraceCount, doubledState, hh, hp, List.countP_cons] at hc
          · simp [TraceCount, doubledState, hh, hp, List.countP_cons] at hc
        · simp [TraceCount, doubledState, hh] at hc
    · intro h x hx c hcand
      dsimp [doubledState] at hx
      by_cases hh : h = 1
      · rw [if_pos hh] at hx
        rcases List.mem_cons.mp hx with rfl | hx
        · simp [exampleStatement] at hcand
        · rcases List.mem_singleton.mp hx with rfl
          simp [exampleStatement] at hcand
      · rw [if_neg hh] at hx
        exact absurd hx (List.not_mem_nil x)
  · intro hInv
    have hmem : exampleTrace ∈ (doubledState.push exampleStatement).known_traces := by
      decide
    have h1 := (hInv.1 exampleTrace).mp hmem
    have h3 : TraceCount (doubledState.push exampleStatement) exampleTrace = 3 := by
      decide
    rw [h3] at h1
    exact absurd h1 (by decide)

/-- Claim C3 (amended): the literal buffer invariant holds in the empty
initial state and in every buffer state reachable from it by pushes and
drains; it is an inductive consequence of the strengthened invariant, which
additionally records that an absent trace occurs zero times and that every
statement is keyed under its own referenced hash. -/
theorem bufferInvariant_reachable :
    BufferInvariant DeferredStatements.new ∧
    ∀ st : DeferredStatements, Reachable st → BufferInvariant st :=
  ⟨strongInv_bufferInvariant DeferredStatements.new strongInv_new,
   fun st h => strongInv_bufferInvariant st (reachable_strongInv st h)⟩

/-- Witness for bufferInvariant_reachable at the state reached by one push. -/
theorem bufferInvariant_reachable_witness :
    BufferInvariant (DeferredStatements.new.push exampleStatement) :=
  bufferInvariant_reachable.2 (DeferredStatements.new.push exampleStatement)
    (Reachable.push DeferredStatements.new exampleStatement Reachable.init)

theorem forall2_filterMap_trace (h : Hash) (l : List SignedStatement)
    (hl : ∀ x ∈ l, ∃ t : StatementTrace, statementTrace x = some (h, t)) :
    List.Forall₂ (fun x u => traceFor x h = some u) l (l.filterMap traceOfStatement) := by
  induction l with
  | nil => exact List.Forall₂.nil
  | cons a l ih =>
    obtain ⟨t, ht⟩ := hl a (List.mem_cons_self a l)
    rw [List.filterMap_cons_some (traceOfStatement_of_statementTrace a h t ht)]
    exact List.Forall₂.cons (traceFor_of_statementTrace a h t ht)
      (ih (fun x hx => hl x (List.mem_cons_of_mem a hx)))

/-- Claim C7: for every buffer state satisfying the buffer invariant (its
keying discipline included), draining a hash returns statements and traces in
pointwise correspondence, each trace being recomputed from the kind and sender
of its statement together with the drained hash, and with every returned trace
absent from the trace set of the resulting state. -/
theorem drain_correspondence (st : DeferredStatements) (h : Hash)
    (hwk : WellKeyed st) (hinv : BufferInvariant st) :
    ((st.get_deferred h).1.2).length = ((st.get_deferred h).1.1).length ∧
    List.Forall₂ (fun x u => traceFor x h = some u)
      (st.get_deferred h).1.1 (st.get_deferred h).1.2 ∧
    ∀ u ∈ (st.get_deferred h).1.2, u ∉ ((st.get_deferred h).2).known_traces := by
  have hfa : List.Forall₂ (fun x u => traceFor x h = some u)
      (st.deferred h) ((st.deferred h).filterMap traceOfStatement) :=
    forall2_filterMap_trace h (st.deferred h) (fun x hx => hwk h x hx)
  refine ⟨(List.Forall₂.length_eq hfa).symm, hfa, ?_⟩
  intro u hu
  dsimp only [DeferredStatements.get_deferred] at hu ⊢
  rw [mem_foldl_erase]
  rintro ⟨-, hnt⟩
  exact hnt hu

/-- Witness for drain_correspondence at the reachable one-statement state. -/
theorem drain_correspondence_witness :
    (((DeferredStatements.new.push exampleStatement).get_deferred 1).1.2).length =
      (((DeferredStatements.new.push exampleStatement).get_deferred 1).1.1).length ∧
    List.Forall₂ (fun x u => traceFor x 1 = some u)
      ((DeferredStatements.new.push exampleStatement).get_deferred 1).1.1
      ((DeferredStatements.new.push exampleStatement).get_deferred 1).1.2 ∧
    ∀ u ∈ ((DeferredStatements.new.push exampleStatement).get_deferred 1).1.2,
      u ∉ (((DeferredStatements.new.push exampleStatement).get_deferred 1).2).known_traces :=
  drain_correspondence (DeferredStatements.new.push exampleStatement) 1
    (reachable_strongInv (DeferredStatements.new.push exampleStatement)
      (Reachable.push DeferredStatements.new exampleStatement Reachable.init)).1
    (strongInv_bufferInvariant (DeferredStatements.new.push exampleStatement)
      (reachable_strongInv (DeferredStatements.new.push exampleStatement)
        (Reachable.push DeferredStatements.new exampleStatement Reachable.init)))
